import Mathlib

/-!
# Verification of the vehicle-catalog converter

Shallow embedding of `src/excel_to_json.py`: the price-range formatter
`format_price_range`, the two row extractors (`csv_to_json`'s reading loop and
`excel_to_json`'s reading loop), the static `CATEGORY_MAPPING`, and the
per-category iteration of both runners.  File I/O is abstracted into an
environment function mapping a source name to the rows it holds (`none` when
the file or sheet is absent); console output is modelled as a list of emitted
warning strings.  Fallible Python operations (sequence indexing, `None.strip()`,
numeric parsing) are modelled with `Except`/`Option`; an uncaught Python
exception is an `Except.error`.

Modelling notes, each marked at its definition:
* Python `str.strip()` / `\s` use the Unicode whitespace set; `pyIsSpace`
  lists that set explicitly.
* Python `str.lower()` is full Unicode lowering; `pyLower` restricts it to
  ASCII, which is extensionally equivalent on every code point that could
  influence the only use site (the `"request"` substring test).
* `re.split(r"\s*[–-]\s*", s)` applied to an already-stripped `s` is splitting
  at each dash character and discarding the whitespace adjacent to dashes,
  i.e. `(splitDashes s).map stripP`.
* `float` parsing/formatting of a digits-and-dot segment is modelled by exact
  decimal arithmetic (IEEE-754 binary rounding is not observable at realistic
  price magnitudes, and no claim depends on the decimal branch's digits).
* `csv.DictReader` yields one dict per physical row with every header key
  present; a physically short row stores Python `None` for missing fields,
  so field values are `Option String` (`none` = Python `None`), and
  `dict.get(k, default)` returns the stored value (even `None`) when the key
  is present.
* `openpyxl` `iter_rows(values_only=True)` yields tuples of cell values,
  abstracted as `Option String` (`none` = empty cell); indexing past the end
  of the tuple raises `IndexError`.
-/

/-- The Unicode whitespace set used by Python's `str.strip` and `\s` for
`str` patterns (code points with `str.isspace() == True`). -/
def pyIsSpace (c : Char) : Bool :=
  let n := c.toNat
  (9 ≤ n && n ≤ 13) || (28 ≤ n && n ≤ 31) || n == 32 || n == 133 || n == 160 ||
  n == 0x1680 || (0x2000 ≤ n && n ≤ 0x200A) || n == 0x2028 || n == 0x2029 ||
  n == 0x202F || n == 0x205F || n == 0x3000

/-- Python `str.lower`, restricted to ASCII letters.  The only use is the
`'request' in s.lower()` test; among non-ASCII code points only U+212A (KELVIN
SIGN, lowering to `k`) lowers to an ASCII letter at all, and `k` does not occur
in `"request"`, so the restriction does not change that test's outcome. -/
def pyLower (c : Char) : Char :=
  if 65 ≤ c.toNat && c.toNat ≤ 90 then Char.ofNat (c.toNat + 32) else c

/-- `s.strip()` on the character list: drop whitespace from both ends. -/
def stripP (l : List Char) : List Char :=
  (((l.dropWhile pyIsSpace).reverse).dropWhile pyIsSpace).reverse

/-- `s.strip()`. -/
def pyStrip (s : String) : String := String.mk (stripP s.toList)

/-- The two dash characters of the range-splitting pattern `[–-]`
(U+2013 EN DASH and U+002D HYPHEN-MINUS). -/
def isDash (c : Char) : Bool := c == '-' || c == '–'

/-- The character class kept by `re.sub(r"[^0-9.]", "", part)`. -/
def digitOrDot (c : Char) : Bool := c.isDigit || c == '.'

/-- Split a character list at each dash character, keeping the (possibly
empty) pieces between dashes. -/
def splitDashes : List Char → List (List Char)
  | [] => [[]]
  | c :: cs =>
    let r := splitDashes cs
    if isDash c then [] :: r
    else
      match r with
      | [] => [[c]]
      | t :: ts => (c :: t) :: ts

/-- Substring test (Python `pat in l`). -/
def isSubstrB (pat : List Char) : List Char → Bool
  | [] => pat.isEmpty
  | c :: cs => pat.isPrefixOf (c :: cs) || isSubstrB pat cs

/-- The pattern of the `'request' in s.lower()` test. -/
def reqPat : List Char := "request".toList

/-- Three-at-a-time comma grouping, on a reversed digit list. -/
def commaGroupAux : List Char → List Char
  | a :: b :: c :: d :: rest => a :: b :: c :: ',' :: commaGroupAux (d :: rest)
  | l => l

/-- Python's `{:,}` thousands grouping of a digit list. -/
def commaGroup (ds : List Char) : List Char := (commaGroupAux ds.reverse).reverse

/-- Decimal digits of `n`, most significant first (fuelled so that it reduces
in the kernel; `fuel = n + 1` always suffices). -/
def toDecimalAux : Nat → Nat → List Char
  | 0, _ => []
  | fuel + 1, n =>
    if n < 10 then [Nat.digitChar n]
    else toDecimalAux fuel (n / 10) ++ [Nat.digitChar (n % 10)]

/-- Decimal rendering of a natural number (Python `str(int)`). -/
def toDecimal (n : Nat) : List Char := toDecimalAux (n + 1) n

/-- Value of a digit list (Python `int` of a digit-only string; the list is
always all ASCII digits at the use sites). -/
def natOfDigits (ds : List Char) : Nat :=
  ds.foldl (fun a c => a * 10 + (c.toNat - 48)) 0

/-- Round `a / b` to the nearest integer, ties to even (the rounding of
Python's fixed-point float formatting, on exact decimal input). -/
def roundHalfEven (a b : Nat) : Nat :=
  let q := a / b
  let r := a % b
  if 2 * r < b then q
  else if b < 2 * r then q + 1
  else if q % 2 == 0 then q else q + 1

/-- The value of `float(intD ++ "." ++ fracD)` in hundredths, rounded as
`{:,.2f}` renders it (exact-decimal model of the double rounding). -/
def centsOf (intD fracD : List Char) : Nat :=
  let k := fracD.length
  let m := natOfDigits (intD ++ fracD)
  if k ≤ 2 then m * 10 ^ (2 - k) else roundHalfEven (m * 100) (10 ^ k)

/-- Whether `float` accepts a digits-and-dot string: one dot, some digit. -/
def countDotsOK (numRaw : List Char) : Bool :=
  numRaw.countP (fun c => c == '.') == 1 && numRaw.any Char.isDigit

/-- One pass of the per-segment loop body of `format_price_range`:
`none` models the `return s` fallbacks (no digits, or `float` raising). -/
def formatSegment (part : List Char) : Option String :=
  let numRaw := part.filter digitOrDot
  if numRaw.isEmpty then none
  else if numRaw.contains '.' then
    -- float branch: `float(num_raw)` succeeds on a digits-and-dot string iff
    -- it has exactly one dot and at least one digit
    if countDotsOK numRaw then
      let intD := numRaw.takeWhile (fun c => !(c == '.'))
      let fracD := (numRaw.dropWhile (fun c => !(c == '.'))).drop 1
      let cents := centsOf intD fracD
      some ("₱" ++ String.mk (commaGroup (toDecimal (cents / 100))) ++ "." ++
        String.mk [Nat.digitChar (cents % 100 / 10), Nat.digitChar (cents % 100 % 10)])
    else none
  else
    some ("₱" ++ String.mk (commaGroup (toDecimal (natOfDigits numRaw))))

/-- Early-returning map of the per-segment loop (`none` as soon as one
segment fails, mirroring the loop's `return s`). -/
def mapOpt (f : List Char → Option String) : List (List Char) → Option (List String)
  | [] => some []
  | x :: xs =>
    match f x with
    | none => none
    | some y =>
      match mapOpt f xs with
      | none => none
      | some ys => some (y :: ys)

/-- `format_price_range` on a string argument (after the `raw is None` test). -/
def formatPriceRangeStr (s0 : String) : String :=
  let t := stripP s0.toList          -- s = str(raw).strip()
  if t.isEmpty then ""               -- if not s: return ""
  else if isSubstrB reqPat (t.map pyLower) then "Price on Request"
  else
    -- parts = re.split(r"\s*[–-]\s*", s); on the stripped s this splits at
    -- each dash and discards whitespace adjacent to the dashes
    let parts := (splitDashes t).map stripP
    match mapOpt formatSegment parts with
    | none => String.mk t            -- a segment failed: return s
    | some [one] => one
    | some more => String.intercalate " – " more

/-- `format_price_range(raw)`; `none` models a Python `None` argument. -/
def formatPriceRange (raw : Option String) : String :=
  match raw with
  | none => ""
  | some s => formatPriceRangeStr s

/-- One emitted model entry (`{"model": …, "variant": …, "priceRange": …}`). -/
structure ModelRecord where
  model : String
  variant : String
  priceRange : String
deriving DecidableEq, Repr

deriving instance DecidableEq for Except

/-- A `csv.DictReader` row: header keys with their values; a value is `none`
when the physical row was shorter than the header (Python `None`). -/
abbrev CsvRow := List (String × Option String)

/-- An `iter_rows(values_only=True)` row: cell values, `none` = empty cell. -/
abbrev ExRow := List (Option String)

/-- `row.get(k, d)`: the stored value (possibly `none`) when the key is
present, the default otherwise. -/
def rowGetD (r : CsvRow) (k : String) (d : Option String) : Option String :=
  match r.find? (fun p => p.1 == k) with
  | some p => p.2
  | none => d

/-- `row.get('Model')` (default `None`). -/
def modelCell (r : CsvRow) : Option String := rowGetD r "Model" none

/-- Python truthiness of a string-or-None value. -/
def truthyOpt (o : Option String) : Bool :=
  match o with
  | none => false
  | some s => !(s == "")

/-- `v.strip()` on a string-or-None value: `None.strip()` raises. -/
def pyStripE (o : Option String) : Except Unit String :=
  match o with
  | some s => Except.ok (pyStrip s)
  | none => Except.error ()

/-- The reading loop of `csv_to_json` for one file: break at the first row
whose `Model` value is falsy, emit a record per remaining row.  (The reader
never yields `None` rows, so the dead `row is None` disjunct is not modelled.) -/
def csvExtract : List CsvRow → Except Unit (List ModelRecord)
  | [] => Except.ok []
  | r :: rs =>
    if truthyOpt (modelCell r) then
      match pyStripE (rowGetD r "Model" (some "")),
            pyStripE (rowGetD r "Variant" (some "")) with
      | Except.ok m, Except.ok v =>
        (match csvExtract rs with
         | Except.ok tail =>
           Except.ok (⟨m, v,
             formatPriceRange (rowGetD r "2026 Price Range (SRP)" (some ""))⟩ :: tail)
         | Except.error e => Except.error e)
      | Except.error e, _ => Except.error e
      | _, Except.error e => Except.error e
    else Except.ok []

/-- `row[i]` on a cell tuple: `IndexError` past the end. -/
def cellAt : ExRow → Nat → Except Unit (Option String)
  | [], _ => Except.error ()
  | c :: _, 0 => Except.ok c
  | _ :: t, i + 1 => cellAt t i

/-- `x if x else ""` on a cell value. -/
def pyOr (c : Option String) : String :=
  match c with
  | none => ""
  | some w => if w == "" then "" else w

/-- The reading loop of `excel_to_json` for one sheet: break when the first
cell is `None`; fetch cells 1 and 2 unconditionally; emit unless the model
string is empty. -/
def excelExtract : List ExRow → Except Unit (List ModelRecord)
  | [] => Except.ok []
  | r :: rs =>
    match cellAt r 0 with
    | Except.error e => Except.error e
    | Except.ok none => Except.ok []          -- if row[0] is None: break
    | Except.ok (some v) =>
      match cellAt r 1, cellAt r 2 with
      | Except.ok c1, Except.ok c2 =>
        (match excelExtract rs with
         | Except.ok tail =>
           if pyOr (some v) == "" then Except.ok tail   -- if model: ...
           else Except.ok (⟨pyStrip (pyOr (some v)), pyStrip (pyOr c1),
             formatPriceRangeStr (pyOr c2)⟩ :: tail)
         | Except.error e => Except.error e)
      | Except.error e, _ => Except.error e
      | _, Except.error e => Except.error e

/-- One entry of `CATEGORY_MAPPING`. -/
structure CategoryInfo where
  csv_name : String
  id : String
  name : String
  subtitle : String
  icon : String
  description : String
deriving DecidableEq, Repr

/-- The `"Passenger Vehicles"` catalog entry. -/
def infoPassenger : CategoryInfo :=
  ⟨"Passenger Vehicles.csv", "passenger", "Passenger Vehicles",
   "Personal & Family", "👨‍👩‍👧‍👦",
   "Personal & Family vehicles for everyday comfort"⟩

/-- The `"Light Commercial"` catalog entry. -/
def infoLightCommercial : CategoryInfo :=
  ⟨"Light Commercial.csv", "light-commercial", "Light Commercial Vehicles",
   "Small Business", "🏪",
   "Small Business solutions for efficient operations"⟩

/-- The `"Medium Duty Trucks"` catalog entry. -/
def infoMediumDuty : CategoryInfo :=
  ⟨"Medium Duty Trucks.csv", "medium-duty", "Light to Medium Duty Trucks",
   "N-Series & F-Series", "🚛",
   "N-Series & F-Series for versatile hauling"⟩

/-- The `"Heavy Duty GIGA"` catalog entry. -/
def infoHeavyDuty : CategoryInfo :=
  ⟨"Heavy Duty GIGA.csv", "heavy-duty", "Heavy Duty & Special Purpose",
   "GIGA", "💪",
   "GIGA series for demanding operations"⟩

/-- The static category catalog, in source order. -/
def CATEGORY_MAPPING : List (String × CategoryInfo) :=
  [("Passenger Vehicles", infoPassenger),
   ("Light Commercial", infoLightCommercial),
   ("Medium Duty Trucks", infoMediumDuty),
   ("Heavy Duty GIGA", infoHeavyDuty)]

/-- One output category object. -/
structure CategoryOut where
  id : String
  name : String
  subtitle : String
  icon : String
  description : String
  models : List ModelRecord
deriving DecidableEq, Repr

/-- The assembler: category metadata plus the extracted records. -/
def catOf (info : CategoryInfo) (ms : List ModelRecord) : CategoryOut :=
  ⟨info.id, info.name, info.subtitle, info.icon, info.description, ms⟩

/-- The warning printed for a missing CSV file. -/
def warnCsv (p : String) : String :=
  "Warning: File \x27templates/" ++ p ++ "\x27 not found. Skipping..."

/-- The warning printed for a missing workbook sheet. -/
def warnSheet (k : String) : String :=
  "Warning: Sheet \x27" ++ k ++ "\x27 not found. Skipping..."

/-- The per-category loop of `csv_to_json` over a catalog fragment.
`env` maps a CSV file name to its rows; `none` = file absent.  Returns the
assembled categories and the warnings printed, in order. -/
def csvRunGo (env : String → Option (List CsvRow)) :
    List (String × CategoryInfo) → Except Unit (List CategoryOut × List String)
  | [] => Except.ok ([], [])
  | (_, info) :: rest =>
    match env info.csv_name with
    | none =>
      (match csvRunGo env rest with
       | Except.ok (cats, logs) => Except.ok (cats, warnCsv info.csv_name :: logs)
       | Except.error e => Except.error e)
    | some rows =>
      match csvExtract rows with
      | Except.error e => Except.error e
      | Except.ok ms =>
        (match csvRunGo env rest with
         | Except.ok (cats, logs) => Except.ok (catOf info ms :: cats, logs)
         | Except.error e => Except.error e)

/-- The CSV-mode run (after the fatal templates-directory existence check). -/
def csvRun (env : String → Option (List CsvRow)) :
    Except Unit (List CategoryOut × List String) :=
  csvRunGo env CATEGORY_MAPPING

/-- The per-category loop of `excel_to_json` over a catalog fragment.
`env` maps a sheet name to its rows; `none` = sheet absent. -/
def excelRunGo (env : String → Option (List ExRow)) :
    List (String × CategoryInfo) → Except Unit (List CategoryOut × List String)
  | [] => Except.ok ([], [])
  | (sheet, info) :: rest =>
    match env sheet with
    | none =>
      (match excelRunGo env rest with
       | Except.ok (cats, logs) => Except.ok (cats, warnSheet sheet :: logs)
       | Except.error e => Except.error e)
    | some rows =>
      match excelExtract rows with
      | Except.error e => Except.error e
      | Except.ok ms =>
        (match excelRunGo env rest with
         | Except.ok (cats, logs) => Except.ok (catOf info ms :: cats, logs)
         | Except.error e => Except.error e)

/-- The workbook-mode run (after the fatal workbook existence check). -/
def excelRun (env : String → Option (List ExRow)) :
    Except Unit (List CategoryOut × List String) :=
  excelRunGo env CATEGORY_MAPPING

/-- Spec-side (claim C2 wording): the 0-based index of the first CSV row
whose model field is empty or missing, or the row count. -/
def specStopIdxCsv : List CsvRow → Nat
  | [] => 0
  | r :: rs => if truthyOpt (modelCell r) then specStopIdxCsv rs + 1 else 0

/-- Spec-side (claim C2 wording): the 0-based index of the first sheet row
whose model field (first cell) is empty or missing, or the row count. -/
def specStopIdxEx : List ExRow → Nat
  | [] => 0
  | r :: rs =>
    match r.head? with
    | some (some m) => if m == "" then 0 else specStopIdxEx rs + 1
    | _ => 0

/-- The sheet loop continues past this row (first cell present and not
`None`). -/
def exCont (r : ExRow) : Bool :=
  match r.head? with
  | some (some _) => true
  | _ => false

/-- The sheet loop emits a record for this row (first cell a non-empty
string). -/
def exEmit (r : ExRow) : Bool :=
  match r.head? with
  | some (some m) => !(m == "")
  | _ => false


/-! ## Character-class facts -/

/-- `Char.ofNat` on a valid code point reads back as the same `Nat`. -/
theorem char_toNat_ofNat (n : Nat) (h : n.isValidChar) : (Char.ofNat n).toNat = n := by
  unfold Char.ofNat
  rw [dif_pos h]
  rfl

/-- Arithmetic reading of `pyIsSpace`. -/
theorem pyIsSpace_iff (c : Char) : pyIsSpace c = true ↔
    (9 ≤ c.toNat ∧ c.toNat ≤ 13) ∨ (28 ≤ c.toNat ∧ c.toNat ≤ 31) ∨ c.toNat = 32 ∨
    c.toNat = 133 ∨ c.toNat = 160 ∨ c.toNat = 5760 ∨
    (8192 ≤ c.toNat ∧ c.toNat ≤ 8202) ∨ c.toNat = 8232 ∨ c.toNat = 8233 ∨
    c.toNat = 8239 ∨ c.toNat = 8287 ∨ c.toNat = 12288 := by
  simp only [pyIsSpace, Bool.or_eq_true, Bool.and_eq_true, decide_eq_true_eq, beq_iff_eq]
  tauto

/-- No code point in `[33, 132]` is whitespace. -/
theorem pyIsSpace_false_of_range (c : Char) (h1 : 33 ≤ c.toNat) (h2 : c.toNat ≤ 132) :
    pyIsSpace c = false := by
  rw [← Bool.not_eq_true, pyIsSpace_iff]
  omega

/-- `pyLower` fixes characters outside `A`–`Z`. -/
theorem pyLower_eq_self (c : Char) (h : ¬(65 ≤ c.toNat ∧ c.toNat ≤ 90)) :
    pyLower c = c := by
  unfold pyLower
  rw [if_neg]
  simpa [Bool.and_eq_true, decide_eq_true_eq] using h

/-- Lowering does not change whether a character is whitespace. -/
theorem pyIsSpace_pyLower (c : Char) : pyIsSpace (pyLower c) = pyIsSpace c := by
  by_cases h : 65 ≤ c.toNat ∧ c.toNat ≤ 90
  · have hval : (Char.ofNat (c.toNat + 32)).toNat = c.toNat + 32 :=
      char_toNat_ofNat _ (Or.inl (by omega))
    have hl : pyLower c = Char.ofNat (c.toNat + 32) := by
      unfold pyLower
      rw [if_pos]
      simp [Bool.and_eq_true, decide_eq_true_eq]
      omega
    rw [hl, pyIsSpace_false_of_range _ (by omega) (by omega),
      pyIsSpace_false_of_range _ (by omega) (by omega)]
  · rw [pyLower_eq_self c h]

/-! ## Generic list helpers -/

theorem dropWhile_eq_nil_of_all {p : Char → Bool} {l : List Char}
    (h : ∀ c ∈ l, p c = true) : l.dropWhile p = [] := by
  induction l with
  | nil => rfl
  | cons c cs ih =>
    rw [List.dropWhile_cons, if_pos (h c (by simp))]
    exact ih fun d hd => h d (by simp [hd])

theorem dropWhile_eq_self_of_all {p : Char → Bool} {l : List Char}
    (h : ∀ c ∈ l, p c = false) : l.dropWhile p = l := by
  cases l with
  | nil => rfl
  | cons c cs => rw [List.dropWhile_cons, if_neg (by simp [h c (by simp)])]

theorem exists_dropWhile_append (p : Char → Bool) (a m : List Char)
    (hm : List.dropWhile p m = m) :
    ∃ a2, List.dropWhile p (a ++ m) = a2 ++ m := by
  induction a with
  | nil => exact ⟨[], by simpa using hm⟩
  | cons c a' ih =>
    by_cases h : p c = true
    · obtain ⟨a2, ha2⟩ := ih
      exact ⟨a2, by simpa [List.dropWhile_cons, h] using ha2⟩
    · exact ⟨c :: a', by simp [List.dropWhile_cons, h]⟩

/-! ## `stripP` facts -/

theorem stripP_nil : stripP [] = [] := rfl

theorem stripP_all_space {l : List Char} (h : ∀ c ∈ l, pyIsSpace c = true) :
    stripP l = [] := by
  unfold stripP
  rw [dropWhile_eq_nil_of_all h]
  rfl

theorem stripP_all_nonspace {l : List Char} (h : ∀ c ∈ l, pyIsSpace c = false) :
    stripP l = l := by
  unfold stripP
  rw [dropWhile_eq_self_of_all h, dropWhile_eq_self_of_all (by simpa using h)]
  simp

/-! ## `isSubstrB` facts -/

theorem isSubstrB_iff (pat l : List Char) :
    isSubstrB pat l = true ↔ ∃ a b, l = a ++ (pat ++ b) := by
  induction l with
  | nil =>
    simp only [isSubstrB, List.isEmpty_iff]
    constructor
    · rintro rfl
      exact ⟨[], [], rfl⟩
    · rintro ⟨a, b, h⟩
      have h' := h.symm
      simp only [List.append_eq_nil] at h'
      exact h'.2.1
  | cons c cs ih =>
    simp only [isSubstrB, Bool.or_eq_true, List.isPrefixOf_iff_prefix, ih]
    constructor
    · rintro (⟨t, ht⟩ | ⟨a, b, hab⟩)
      · exact ⟨[], t, by simp [← ht]⟩
      · exact ⟨c :: a, b, by simp [hab]⟩
    · rintro ⟨a, b, h⟩
      cases a with
      | nil =>
        left
        exact ⟨b, by simpa using h.symm⟩
      | cons a0 a' =>
        right
        rw [List.cons_append] at h
        injection h with h1 h2
        exact ⟨a', b, h2⟩

theorem mem_of_isSubstrB {pat l : List Char} {c : Char}
    (h : isSubstrB pat l = true) (hc : c ∈ pat) : c ∈ l := by
  obtain ⟨a, b, rfl⟩ := (isSubstrB_iff pat l).1 h
  simp [hc]

/-- The `"request"` pattern survives stripping (its characters are not
whitespace, so an occurrence lies inside the stripped core). -/
theorem isSubstrB_req_stripP {l : List Char} (h : isSubstrB reqPat l = true) :
    isSubstrB reqPat (stripP l) = true := by
  obtain ⟨a, b, rfl⟩ := (isSubstrB_iff reqPat l).1 h
  have h1 : List.dropWhile pyIsSpace (reqPat ++ b) = reqPat ++ b := by
    rw [show reqPat = 'r' :: "equest".toList from rfl]
    rw [List.cons_append, List.dropWhile_cons, if_neg (by decide)]
  obtain ⟨a2, ha2⟩ := exists_dropWhile_append pyIsSpace a (reqPat ++ b) h1
  have h2 : List.dropWhile pyIsSpace (reqPat.reverse ++ a2.reverse) =
      reqPat.reverse ++ a2.reverse := by
    rw [show reqPat.reverse = 't' :: "seuqer".toList from rfl]
    rw [List.cons_append, List.dropWhile_cons, if_neg (by decide)]
  obtain ⟨b2, hb2⟩ :=
    exists_dropWhile_append pyIsSpace b.reverse (reqPat.reverse ++ a2.reverse) h2
  unfold stripP
  rw [ha2, List.reverse_append, List.reverse_append, List.append_assoc, hb2]
  rw [isSubstrB_iff]
  exact ⟨a2, b2.reverse, by simp⟩

/-! ## Lowering commutes with stripping -/

theorem dropWhile_map_pyLower (l : List Char) :
    List.dropWhile pyIsSpace (l.map pyLower) = (List.dropWhile pyIsSpace l).map pyLower := by
  induction l with
  | nil => rfl
  | cons c cs ih =>
    by_cases h : pyIsSpace c = true
    · simp [List.dropWhile_cons, pyIsSpace_pyLower, h, ih]
    · simp [List.dropWhile_cons, pyIsSpace_pyLower, h]

theorem stripP_map_pyLower (l : List Char) :
    stripP (l.map pyLower) = (stripP l).map pyLower := by
  unfold stripP
  rw [dropWhile_map_pyLower, ← List.map_reverse, dropWhile_map_pyLower, ← List.map_reverse]

/-! ## `mapOpt` facts -/

theorem mapOpt_eq_none {f : List Char → Option String} {parts : List (List Char)}
    (h : ∃ part ∈ parts, f part = none) : mapOpt f parts = none := by
  induction parts with
  | nil => simp at h
  | cons x xs ih =>
    obtain ⟨part, hmem, hnone⟩ := h
    rcases List.mem_cons.1 hmem with rfl | hmem'
    · simp [mapOpt, hnone]
    · unfold mapOpt
      rw [ih ⟨part, hmem', hnone⟩]
      cases f x <;> rfl

theorem mapOpt_eq_some {f : List Char → Option String} {parts : List (List Char)}
    {g : List Char → String} (h : ∀ part ∈ parts, f part = some (g part)) :
    mapOpt f parts = some (parts.map g) := by
  induction parts with
  | nil => rfl
  | cons x xs ih =>
    unfold mapOpt
    rw [h x (by simp), ih fun p hp => h p (by simp [hp])]
    rfl

/-! ## The formatter on degenerate inputs -/

/-- Claim C10's property: whitespace-only input strips to nothing and takes the
`if not s` branch. -/
theorem formatPriceRangeStr_all_space {s : String} (h : ∀ c ∈ s.toList, pyIsSpace c = true) :
    formatPriceRangeStr s = "" := by
  unfold formatPriceRangeStr
  rw [stripP_all_space h]
  rfl

/-- Shared failure-path fact: when the (stripped, lowered) input does not
contain `"request"` and some dash-separated segment fails to format,
`format_price_range` returns the stripped input. -/
theorem formatPriceRangeStr_failure {s : String}
    (hreq : isSubstrB reqPat ((stripP s.toList).map pyLower) = false)
    (hfail : ∃ part ∈ (splitDashes (stripP s.toList)).map stripP,
      formatSegment part = none) :
    formatPriceRangeStr s = pyStrip s := by
  unfold formatPriceRangeStr
  cases hsl : stripP s.toList with
  | nil =>
    simp only [List.isEmpty_nil, if_pos]
    unfold pyStrip
    rw [hsl]
  | cons a t' =>
    rw [hsl] at hreq hfail
    simp only [List.isEmpty_cons, Bool.false_eq_true, if_false, hreq,
      mapOpt_eq_none hfail]
    unfold pyStrip
    rw [hsl]

/-- Shared `"request"` fact: a non-empty input whose lowered form contains
`"request"` takes the `Price on Request` branch. -/
theorem formatPriceRangeStr_request {s : String}
    (h : isSubstrB reqPat (s.toList.map pyLower) = true) :
    formatPriceRangeStr s = "Price on Request" := by
  have h2 : isSubstrB reqPat ((stripP s.toList).map pyLower) = true := by
    rw [← stripP_map_pyLower]
    exact isSubstrB_req_stripP h
  unfold formatPriceRangeStr
  cases hsl : stripP s.toList with
  | nil =>
    rw [hsl] at h2
    exact absurd h2 (by decide)
  | cons a t' =>
    rw [hsl] at h2
    simp only [List.isEmpty_cons, Bool.false_eq_true, if_false, h2, if_pos]

/-! ## Claims about the price formatter: C1, C7, C9, C10 -/

/-- C10: a non-empty input consisting only of whitespace strips to nothing
before the emptiness check, so `format_price_range` returns the empty
string. -/
theorem c10_whitespace_only_empty (s : String) (h1 : s ≠ "")
    (h2 : ∀ c ∈ s.toList, pyIsSpace c = true) :
    formatPriceRangeStr s = "" :=
  formatPriceRangeStr_all_space h2

theorem c10_whitespace_only_empty_witness :
    ("   " : String) ≠ "" ∧ formatPriceRangeStr "   " = "" :=
  ⟨by decide, c10_whitespace_only_empty "   " (by decide) (by decide)⟩

/-- C7: any non-empty input whose lowercased form contains `"request"` is
mapped to the literal `"Price on Request"`, regardless of casing and of any
numeric content. -/
theorem c7_request_passthrough (s : String) (h1 : s ≠ "")
    (h2 : isSubstrB reqPat (s.toList.map pyLower) = true) :
    formatPriceRangeStr s = "Price on Request" :=
  formatPriceRangeStr_request h2

theorem c7_request_passthrough_witness :
    ("price ON request 123" : String) ≠ "" ∧
    isSubstrB reqPat (("price ON request 123" : String).toList.map pyLower) = true ∧
    formatPriceRangeStr "price ON request 123" = "Price on Request" :=
  ⟨by decide, by decide, c7_request_passthrough _ (by decide) (by decide)⟩

/-- C1 (amended): on a request-free input in which some dash-separated
segment has no digit or dot characters or fails the numeric parse,
`format_price_range` returns the *stripped* input string (not the untouched
original). -/
theorem c1_failure_returns_stripped_input (s : String)
    (h1 : isSubstrB reqPat ((stripP s.toList).map pyLower) = false)
    (h2 : ∃ part ∈ (splitDashes (stripP s.toList)).map stripP,
      formatSegment part = none) :
    formatPriceRangeStr s = pyStrip s :=
  formatPriceRangeStr_failure h1 h2

theorem c1_failure_returns_stripped_input_witness :
    isSubstrB reqPat ((stripP ("TBD" : String).toList).map pyLower) = false ∧
    formatPriceRangeStr "TBD" = pyStrip "TBD" :=
  ⟨by decide, c1_failure_returns_stripped_input "TBD" (by decide)
    ⟨['T', 'B', 'D'], by decide, by decide⟩⟩

/-- C1 counterexample: the fallback returns the stripped string, so an input
with surrounding whitespace is *not* returned untouched. -/
theorem c1_not_untouched_counterexample :
    formatPriceRangeStr " TBD " = "TBD" ∧ (" TBD " : String) ≠ "TBD" := by
  constructor <;> decide

/-- C9 (amended): `format_price_range` yields a string on every input
(`None` included); a request-free input with an unparseable segment yields
the stripped input string, never a partial result. -/
theorem c9_total_fallback :
    formatPriceRange none = "" ∧
    ∀ s : String, isSubstrB reqPat ((stripP s.toList).map pyLower) = false →
      (∃ part ∈ (splitDashes (stripP s.toList)).map stripP,
        formatSegment part = none) →
      formatPriceRange (some s) = pyStrip s :=
  ⟨rfl, fun _ h1 h2 => formatPriceRangeStr_failure h1 h2⟩

theorem c9_total_fallback_witness :
    formatPriceRange none = "" ∧ formatPriceRange (some "1.2.3") = pyStrip "1.2.3" :=
  ⟨c9_total_fallback.1, c9_total_fallback.2 "1.2.3" (by decide)
    ⟨['1', '.', '2', '.', '3'], by decide, by decide⟩⟩

/-- C9 counterexample: the per-segment failure path returns the stripped
input, not the original input string. -/
theorem c9_fallback_strips_counterexample :
    formatPriceRange (some " 1.2.3 ") = "1.2.3" ∧ ("1.2.3" : String) ≠ " 1.2.3 " := by
  constructor <;> decide

/-! ## Extractor step lemmas -/

/-- `row.get('Model')` and `row.get('Model', '')` agree when the key holds a
value. -/
theorem rowGetD_model_of_cell {r : CsvRow} {m : String} (h : modelCell r = some m) :
    rowGetD r "Model" (some "") = some m := by
  unfold modelCell at h
  unfold rowGetD at h ⊢
  cases hf : r.find? (fun p => p.1 == "Model") <;> rw [hf] at h <;> simp_all

/-- A lookup over an all-`some` row with a `some` default is `some`. -/
theorem rowGetD_isSome {r : CsvRow} (k : String) {d : Option String}
    (h : ∀ kv ∈ r, kv.2.isSome = true) (hd : d.isSome = true) :
    (rowGetD r k d).isSome = true := by
  unfold rowGetD
  cases hf : r.find? (fun p => p.1 == k) with
  | none => exact hd
  | some p => exact h p (List.mem_of_find?_eq_some hf)

/-- The CSV loop's step on a row with a truthy model cell and a present
variant value: one record is emitted. -/
theorem csvExtract_cons_emit {r : CsvRow} {rs : List CsvRow}
    {tail : List ModelRecord} {m : String}
    (hm : modelCell r = some m) (hm' : ¬(m = ""))
    (hv : (rowGetD r "Variant" (some "")).isSome = true)
    (htail : csvExtract rs = Except.ok tail) :
    csvExtract (r :: rs) =
      Except.ok (⟨pyStrip m, pyStrip ((rowGetD r "Variant" (some "")).getD ""),
        formatPriceRange (rowGetD r "2026 Price Range (SRP)" (some ""))⟩ :: tail) := by
  have ht : truthyOpt (modelCell r) = true := by
    rw [hm]
    simpa [truthyOpt] using hm'
  obtain ⟨v, hv'⟩ := Option.isSome_iff_exists.1 hv
  simp [csvExtract, ht, rowGetD_model_of_cell hm, hv', pyStripE, htail]

/-- The spreadsheet loop's step on a row of width at least 3 whose first cell
holds a string: emitted iff that string is non-empty. -/
theorem excelExtract_cons_full (m : String) (c1 c2 : Option String)
    (rest : ExRow) {rs : List ExRow} {tail : List ModelRecord}
    (htail : excelExtract rs = Except.ok tail) :
    excelExtract ((some m :: c1 :: c2 :: rest) :: rs) =
      Except.ok (if m = "" then tail
        else ⟨pyStrip m, pyStrip (pyOr c1), formatPriceRangeStr (pyOr c2)⟩ :: tail) := by
  by_cases hm : m = ""
  · subst hm
    simp [excelExtract, cellAt, htail, pyOr]
  · simp [excelExtract, cellAt, htail, pyOr, hm]

/-- The spreadsheet loop's step on a terminating row (first cell `None`). -/
theorem excelExtract_cons_stop (rest : ExRow) (rs : List ExRow) :
    excelExtract ((none :: rest) :: rs) = Except.ok [] := by
  simp [excelExtract, cellAt]

/-- The spreadsheet loop's step on a one-cell row with a present first cell:
fetching cell 1 raises. -/
theorem excelExtract_short_row (m : String) (rs : List ExRow) :
    excelExtract ([some m] :: rs) = Except.error () := by
  simp [excelExtract, cellAt]

/-! ## Claims about the extractors: C3, C4, C5 -/

/-- C3 (amended): the CSV loop stops, without emitting, exactly at the first
row whose `Model` value is missing or the *empty string* (Python truthiness,
no stripping); a whitespace-only `Model` is truthy, so such a row is emitted
(with its model stripped to the empty string) rather than terminating. -/
theorem c3_csv_stop_condition :
    (∀ (r : CsvRow) (rs : List CsvRow), truthyOpt (modelCell r) = false →
      csvExtract (r :: rs) = Except.ok []) ∧
    (∀ (r : CsvRow) (rs : List CsvRow) (tail : List ModelRecord) (m : String),
      modelCell r = some m → ¬(m = "") →
      (rowGetD r "Variant" (some "")).isSome = true →
      csvExtract rs = Except.ok tail →
      csvExtract (r :: rs) =
        Except.ok (⟨pyStrip m, pyStrip ((rowGetD r "Variant" (some "")).getD ""),
          formatPriceRange (rowGetD r "2026 Price Range (SRP)" (some ""))⟩ :: tail)) := by
  constructor
  · intro r rs h
    simp [csvExtract, h]
  · intro r rs tail m hm hm' hv htail
    exact csvExtract_cons_emit hm hm' hv htail

theorem c3_csv_stop_condition_witness :
    csvExtract [[("Model", some ""), ("Variant", some "v")]] = Except.ok [] ∧
    csvExtract [[("Model", some "A"), ("Variant", some "v"),
      ("2026 Price Range (SRP)", some "TBD")]] =
      Except.ok [⟨pyStrip "A",
        pyStrip ((rowGetD [("Model", some "A"), ("Variant", some "v"),
          ("2026 Price Range (SRP)", some "TBD")] "Variant" (some "")).getD ""),
        formatPriceRange (rowGetD [("Model", some "A"), ("Variant", some "v"),
          ("2026 Price Range (SRP)", some "TBD")] "2026 Price Range (SRP)" (some ""))⟩] :=
  ⟨c3_csv_stop_condition.1 _ [] (by decide),
   c3_csv_stop_condition.2 _ [] [] "A" (by decide) (by decide) (by decide) rfl⟩

/-- C3 counterexample: a row whose `Model` field is whitespace-only does not
terminate extraction and *is* emitted. -/
theorem c3_whitespace_model_counterexample :
    csvExtract [[("Model", some " "), ("Variant", some "v"),
      ("2026 Price Range (SRP)", some "")]] = Except.ok [⟨"", "v", ""⟩] ∧
    csvExtract [[("Model", some " "), ("Variant", some "v"),
      ("2026 Price Range (SRP)", some "")]] ≠ Except.ok [] := by
  constructor <;> decide

/-- C4 (amended): in a non-terminating row of width at least 3, a record is
emitted iff the first cell's string is non-empty *before* any stripping; a
whitespace-only first cell is emitted (with model stripped to empty), not
skipped. -/
theorem c4_excel_emission_guard (m : String) (c1 c2 : Option String)
    (rest : ExRow) (rs : List ExRow) (tail : List ModelRecord)
    (htail : excelExtract rs = Except.ok tail) :
    excelExtract ((some m :: c1 :: c2 :: rest) :: rs) =
      Except.ok (if m = "" then tail
        else ⟨pyStrip m, pyStrip (pyOr c1), formatPriceRangeStr (pyOr c2)⟩ :: tail) :=
  excelExtract_cons_full m c1 c2 rest htail

theorem c4_excel_emission_guard_witness :
    excelExtract [[some "A", none, some "P100"]] =
      Except.ok (if ("A" : String) = "" then []
        else [⟨pyStrip "A", pyStrip (pyOr none), formatPriceRangeStr (pyOr (some "P100"))⟩]) :=
  c4_excel_emission_guard "A" none (some "P100") [] [] [] rfl

/-- C4 counterexample: a row whose first cell is whitespace-only is emitted,
contradicting the claimed skip-after-stripping. -/
theorem c4_whitespace_cell_counterexample :
    excelExtract [[some " ", none, none]] = Except.ok [⟨"", "", ""⟩] ∧
    excelExtract [[some " ", none, none]] ≠ Except.ok [] := by
  constructor <;> decide

/-- C5 (amended): in an emitted row of width at least 3, the second and third
cells map to `variant` and the raw price, with `None` cells (and empty
strings) treated as the empty string; but a row tuple shorter than three
cells makes the loop raise an index error instead of defaulting. -/
theorem c5_cell_defaults :
    (∀ (m : String) (c1 c2 : Option String) (rest : ExRow) (rs : List ExRow)
      (tail : List ModelRecord), ¬(m = "") → excelExtract rs = Except.ok tail →
      excelExtract ((some m :: c1 :: c2 :: rest) :: rs) =
        Except.ok (⟨pyStrip m, pyStrip (pyOr c1),
          formatPriceRangeStr (pyOr c2)⟩ :: tail)) ∧
    (∀ (m : String) (rs : List ExRow),
      excelExtract ([some m] :: rs) = Except.error ()) ∧
    pyOr none = "" := by
  refine ⟨?_, excelExtract_short_row, rfl⟩
  intro m c1 c2 rest rs tail hm htail
  rw [excelExtract_cons_full m c1 c2 rest htail, if_neg hm]

theorem c5_cell_defaults_witness :
    ¬(("B" : String) = "") ∧
    excelExtract [[some "B", none, none]] =
      Except.ok [⟨pyStrip "B", pyStrip (pyOr none), formatPriceRangeStr (pyOr none)⟩] ∧
    excelExtract [[some "B"]] = Except.error () :=
  ⟨by decide, c5_cell_defaults.1 "B" none none [] [] [] (by decide) rfl,
   c5_cell_defaults.2.1 "B" []⟩

/-- C5 counterexample: accessing the absent second cell of a one-cell row
fails (Python `IndexError`), it is not defaulted to the empty string. -/
theorem c5_short_row_counterexample :
    excelExtract [[some "X"]] = Except.error () := by decide

/-! ## Claim C2: extraction counts -/

/-- CSV half of C2: over rows whose stored field values are all strings, the
loop succeeds and emits exactly up to the first falsy-model row. -/
theorem csvExtract_length (rows : List CsvRow)
    (h : ∀ r ∈ rows, ∀ kv ∈ r, kv.2.isSome = true) :
    ∃ ms, csvExtract rows = Except.ok ms ∧ ms.length = specStopIdxCsv rows := by
  induction rows with
  | nil => exact ⟨[], rfl, rfl⟩
  | cons r rs ih =>
    obtain ⟨ms, hms, hlen⟩ := ih fun r' hr' => h r' (by simp [hr'])
    by_cases ht : truthyOpt (modelCell r) = true
    · obtain ⟨m, hm, hm'⟩ : ∃ m, modelCell r = some m ∧ ¬(m = "") := by
        unfold truthyOpt at ht
        cases hc : modelCell r with
        | none => rw [hc] at ht; exact absurd ht (by simp)
        | some m =>
          rw [hc] at ht
          exact ⟨m, rfl, by simpa using ht⟩
      have hv : (rowGetD r "Variant" (some "")).isSome = true :=
        rowGetD_isSome "Variant" (h r (by simp)) rfl
      rw [csvExtract_cons_emit hm hm' hv hms]
      exact ⟨_, rfl, by simp [specStopIdxCsv, ht, hlen]⟩
    · have ht' : truthyOpt (modelCell r) = false := by simpa using ht
      refine ⟨[], ?_, ?_⟩
      · simp [csvExtract, ht']
      · simp [specStopIdxCsv, ht']

/-- Spreadsheet half of C2: over rows of width at least 3, the loop succeeds
and the emitted count is the number of rows before the first `None`-model row
whose first cell is a non-empty string. -/
theorem excelExtract_length (rows : List ExRow) (h : ∀ r ∈ rows, 3 ≤ r.length) :
    ∃ ms, excelExtract rows = Except.ok ms ∧
      ms.length = (rows.takeWhile exCont).countP exEmit := by
  induction rows with
  | nil => exact ⟨[], rfl, rfl⟩
  | cons r rs ih =>
    obtain ⟨c0, c1, c2, rest, rfl⟩ :
        ∃ c0 c1 c2 rest, r = c0 :: c1 :: c2 :: rest := by
      have h3 := h r (by simp)
      match r, h3 with
      | c0 :: c1 :: c2 :: rest, _ => exact ⟨c0, c1, c2, rest, rfl⟩
    obtain ⟨ms, hms, hlen⟩ := ih fun r' hr' => h r' (by simp [hr'])
    cases c0 with
    | none =>
      refine ⟨[], excelExtract_cons_stop _ _, ?_⟩
      simp [List.takeWhile_cons, exCont]
    | some m =>
      rw [excelExtract_cons_full m c1 c2 rest hms]
      have hc : exCont (some m :: c1 :: c2 :: rest) = true := rfl
      by_cases hm : m = ""
      · subst hm
        rw [if_pos rfl]
        refine ⟨ms, rfl, ?_⟩
        simp [List.takeWhile_cons, hc, List.countP_cons, exEmit, hlen]
      · rw [if_neg hm]
        refine ⟨_, rfl, ?_⟩
        simp [List.takeWhile_cons, hc, List.countP_cons, exEmit, hlen, hm]

/-- C2 (amended): per source block the emitted count is, in the CSV path, the
0-based index of the first row whose model value is missing or empty (else
the row count); in the spreadsheet path it is the number of rows before the
first `None`-first-cell row that carry a non-empty first cell — an
empty-string first cell is skipped without terminating, so the count can
differ from the first-empty-model index. -/
theorem c2_extraction_count :
    (∀ rows : List CsvRow, (∀ r ∈ rows, ∀ kv ∈ r, kv.2.isSome = true) →
      ∃ ms, csvExtract rows = Except.ok ms ∧ ms.length = specStopIdxCsv rows) ∧
    (∀ rows : List ExRow, (∀ r ∈ rows, 3 ≤ r.length) →
      ∃ ms, excelExtract rows = Except.ok ms ∧
        ms.length = (rows.takeWhile exCont).countP exEmit) :=
  ⟨csvExtract_length, excelExtract_length⟩

theorem c2_extraction_count_witness :
    (∃ ms, csvExtract [[("Model", some "A"), ("Variant", some "v"),
        ("2026 Price Range (SRP)", some "P1")], [("Model", some "")]] =
        Except.ok ms ∧
      ms.length = specStopIdxCsv [[("Model", some "A"), ("Variant", some "v"),
        ("2026 Price Range (SRP)", some "P1")], [("Model", some "")]]) ∧
    (∃ ms, excelExtract [[some "A", none, none], [some "", none, none],
        [some "B", none, none]] = Except.ok ms ∧
      ms.length = (([[some "A", none, none], [some "", none, none],
        [some "B", none, none]] : List ExRow).takeWhile exCont).countP exEmit) :=
  ⟨c2_extraction_count.1 _ (by decide), c2_extraction_count.2 _ (by decide)⟩

/-- C2 counterexample: a sheet block whose first row has an empty-string model
emits one record (from the second row), while the claimed count — the index of
the first empty/missing-model row — is 0. -/
theorem c2_excel_count_counterexample :
    excelExtract [[some "", some "v", some "p"], [some "X", some "v", some "p"]] =
      Except.ok [⟨"X", "v", "p"⟩] ∧
    specStopIdxEx [[some "", some "v", some "p"], [some "X", some "v", some "p"]] = 0 := by
  constructor <;> decide

/-! ## Claim C8: absent sources are skipped with a warning -/

/-- Every assembled CSV category comes from a catalog entry whose file was
present, and carries that entry's id. -/
theorem csvRunGo_mem (env : String → Option (List CsvRow)) :
    ∀ (mp : List (String × CategoryInfo)) (cats : List CategoryOut) (logs : List String),
      csvRunGo env mp = Except.ok (cats, logs) → ∀ c ∈ cats,
      ∃ e ∈ mp, ¬(env e.2.csv_name = none) ∧ c.id = e.2.id := by
  intro mp
  induction mp with
  | nil =>
    intro cats logs h c hc
    simp only [csvRunGo, Except.ok.injEq, Prod.mk.injEq] at h
    rw [← h.1] at hc
    simp at hc
  | cons e rest ih =>
    intro cats logs h c hc
    obtain ⟨k, info⟩ := e
    cases henv : env info.csv_name with
    | none =>
      cases hrec : csvRunGo env rest with
      | error e' => simp [csvRunGo, henv, hrec] at h
      | ok p =>
        obtain ⟨cats', logs'⟩ := p
        simp only [csvRunGo, henv, hrec, Except.ok.injEq, Prod.mk.injEq] at h
        rw [← h.1] at hc
        obtain ⟨e', he', hne, hid⟩ := ih cats' logs' hrec c hc
        exact ⟨e', by simp [he'], hne, hid⟩
    | some rows =>
      cases hext : csvExtract rows with
      | error e' => simp [csvRunGo, henv, hext] at h
      | ok ms =>
        cases hrec : csvRunGo env rest with
        | error e' => simp [csvRunGo, henv, hext, hrec] at h
        | ok p =>
          obtain ⟨cats', logs'⟩ := p
          simp only [csvRunGo, henv, hext, hrec, Except.ok.injEq, Prod.mk.injEq] at h
          rw [← h.1] at hc
          rcases List.mem_cons.1 hc with rfl | hc'
          · exact ⟨(k, info), by simp, by simp [henv], rfl⟩
          · obtain ⟨e', he', hne, hid⟩ := ih cats' logs' hrec c hc'
            exact ⟨e', by simp [he'], hne, hid⟩

/-- A missing CSV file's warning is among the printed warnings. -/
theorem csvRunGo_warn (env : String → Option (List CsvRow)) :
    ∀ (mp : List (String × CategoryInfo)) (k : String) (info : CategoryInfo),
      (k, info) ∈ mp → env info.csv_name = none →
      ∀ (cats : List CategoryOut) (logs : List String),
        csvRunGo env mp = Except.ok (cats, logs) → warnCsv info.csv_name ∈ logs := by
  intro mp
  induction mp with
  | nil => intro k info hmem; simp at hmem
  | cons e rest ih =>
    intro k info hmem henv cats logs h
    obtain ⟨k', info'⟩ := e
    rcases List.mem_cons.1 hmem with heq | hmem'
    · injection heq with hk hinfo
      subst hk
      subst hinfo
      cases hrec : csvRunGo env rest with
      | error e' => simp [csvRunGo, henv, hrec] at h
      | ok p =>
        obtain ⟨cats', logs'⟩ := p
        simp only [csvRunGo, henv, hrec, Except.ok.injEq, Prod.mk.injEq] at h
        rw [← h.2]
        simp
    · cases henv' : env info'.csv_name with
      | none =>
        cases hrec : csvRunGo env rest with
        | error e' => simp [csvRunGo, henv', hrec] at h
        | ok p =>
          obtain ⟨cats', logs'⟩ := p
          simp only [csvRunGo, henv', hrec, Except.ok.injEq, Prod.mk.injEq] at h
          rw [← h.2]
          exact List.mem_cons_of_mem _ (ih k info hmem' henv cats' logs' hrec)
      | some rows =>
        cases hext : csvExtract rows with
        | error e' => simp [csvRunGo, henv', hext] at h
        | ok ms =>
          cases hrec : csvRunGo env rest with
          | error e' => simp [csvRunGo, henv', hext, hrec] at h
          | ok p =>
            obtain ⟨cats', logs'⟩ := p
            simp only [csvRunGo, henv', hext, hrec, Except.ok.injEq, Prod.mk.injEq] at h
            rw [← h.2]
            exact ih k info hmem' henv cats' logs' hrec

/-- A present CSV file's category is assembled into the output. -/
theorem csvRunGo_present (env : String → Option (List CsvRow)) :
    ∀ (mp : List (String × CategoryInfo)) (k : String) (info : CategoryInfo),
      (k, info) ∈ mp → ¬(env info.csv_name = none) →
      ∀ (cats : List CategoryOut) (logs : List String),
        csvRunGo env mp = Except.ok (cats, logs) → ∃ c ∈ cats, c.id = info.id := by
  intro mp
  induction mp with
  | nil => intro k info hmem; simp at hmem
  | cons e rest ih =>
    intro k info hmem henv cats logs h
    obtain ⟨k', info'⟩ := e
    rcases List.mem_cons.1 hmem with heq | hmem'
    · injection heq with hk hinfo
      subst hk
      subst hinfo
      obtain ⟨rows, henv'⟩ := Option.ne_none_iff_exists'.1 henv
      cases hext : csvExtract rows with
      | error e' => simp [csvRunGo, henv', hext] at h
      | ok ms =>
        cases hrec : csvRunGo env rest with
        | error e' => simp [csvRunGo, henv', hext, hrec] at h
        | ok p =>
          obtain ⟨cats', logs'⟩ := p
          simp only [csvRunGo, henv', hext, hrec, Except.ok.injEq, Prod.mk.injEq] at h
          rw [← h.1]
          exact ⟨catOf info ms, by simp, rfl⟩
    · cases henv' : env info'.csv_name with
      | none =>
        cases hrec : csvRunGo env rest with
        | error e' => simp [csvRunGo, henv', hrec] at h
        | ok p =>
          obtain ⟨cats', logs'⟩ := p
          simp only [csvRunGo, henv', hrec, Except.ok.injEq, Prod.mk.injEq] at h
          rw [← h.1]
          exact ih k info hmem' henv cats' logs' hrec
      | some rows =>
        cases hext : csvExtract rows with
        | error e' => simp [csvRunGo, henv', hext] at h
        | ok ms =>
          cases hrec : csvRunGo env rest with
          | error e' => simp [csvRunGo, henv', hext, hrec] at h
          | ok p =>
            obtain ⟨cats', logs'⟩ := p
            simp only [csvRunGo, henv', hext, hrec, Except.ok.injEq, Prod.mk.injEq] at h
            rw [← h.1]
            obtain ⟨c, hc, hc'⟩ := ih k info hmem' henv cats' logs' hrec
            exact ⟨c, by simp [hc], hc'⟩

/-- Every assembled workbook category comes from a catalog entry whose sheet
was present, and carries that entry's id. -/
theorem excelRunGo_mem (env : String → Option (List ExRow)) :
    ∀ (mp : List (String × CategoryInfo)) (cats : List CategoryOut) (logs : List String),
      excelRunGo env mp = Except.ok (cats, logs) → ∀ c ∈ cats,
      ∃ e ∈ mp, ¬(env e.1 = none) ∧ c.id = e.2.id := by
  intro mp
  induction mp with
  | nil =>
    intro cats logs h c hc
    simp only [excelRunGo, Except.ok.injEq, Prod.mk.injEq] at h
    rw [← h.1] at hc
    simp at hc
  | cons e rest ih =>
    intro cats logs h c hc
    obtain ⟨k, info⟩ := e
    cases henv : env k with
    | none =>
      cases hrec : excelRunGo env rest with
      | error e' => simp [excelRunGo, henv, hrec] at h
      | ok p =>
        obtain ⟨cats', logs'⟩ := p
        simp only [excelRunGo, henv, hrec, Except.ok.injEq, Prod.mk.injEq] at h
        rw [← h.1] at hc
        obtain ⟨e', he', hne, hid⟩ := ih cats' logs' hrec c hc
        exact ⟨e', by simp [he'], hne, hid⟩
    | some rows =>
      cases hext : excelExtract rows with
      | error e' => simp [excelRunGo, henv, hext] at h
      | ok ms =>
        cases hrec : excelRunGo env rest with
        | error e' => simp [excelRunGo, henv, hext, hrec] at h
        | ok p =>
          obtain ⟨cats', logs'⟩ := p
          simp only [excelRunGo, henv, hext, hrec, Except.ok.injEq, Prod.mk.injEq] at h
          rw [← h.1] at hc
          rcases List.mem_cons.1 hc with rfl | hc'
          · exact ⟨(k, info), by simp, by simp [henv], rfl⟩
          · obtain ⟨e', he', hne, hid⟩ := ih cats' logs' hrec c hc'
            exact ⟨e', by simp [he'], hne, hid⟩

/-- A missing sheet's warning is among the printed warnings. -/
theorem excelRunGo_warn (env : String → Option (List ExRow)) :
    ∀ (mp : List (String × CategoryInfo)) (k : String) (info : CategoryInfo),
      (k, info) ∈ mp → env k = none →
      ∀ (cats : List CategoryOut) (logs : List String),
        excelRunGo env mp = Except.ok (cats, logs) → warnSheet k ∈ logs := by
  intro mp
  induction mp with
  | nil => intro k info hmem; simp at hmem
  | cons e rest ih =>
    intro k info hmem henv cats logs h
    obtain ⟨k', info'⟩ := e
    rcases List.mem_cons.1 hmem with heq | hmem'
    · injection heq with hk hinfo
      subst hk
      subst hinfo
      cases hrec : excelRunGo env rest with
      | error e' => simp [excelRunGo, henv, hrec] at h
      | ok p =>
        obtain ⟨cats', logs'⟩ := p
        simp only [excelRunGo, henv, hrec, Except.ok.injEq, Prod.mk.injEq] at h
        rw [← h.2]
        simp
    · cases henv' : env k' with
      | none =>
        cases hrec : excelRunGo env rest with
        | error e' => simp [excelRunGo, henv', hrec] at h
        | ok p =>
          obtain ⟨cats', logs'⟩ := p
          simp only [excelRunGo, henv', hrec, Except.ok.injEq, Prod.mk.injEq] at h
          rw [← h.2]
          exact List.mem_cons_of_mem _ (ih k info hmem' henv cats' logs' hrec)
      | some rows =>
        cases hext : excelExtract rows with
        | error e' => simp [excelRunGo, henv', hext] at h
        | ok ms =>
          cases hrec : excelRunGo env rest with
          | error e' => simp [excelRunGo, henv', hext, hrec] at h
          | ok p =>
            obtain ⟨cats', logs'⟩ := p
            simp only [excelRunGo, henv', hext, hrec, Except.ok.injEq, Prod.mk.injEq] at h
            rw [← h.2]
            exact ih k info hmem' henv cats' logs' hrec

/-- A present sheet's category is assembled into the output. -/
theorem excelRunGo_present (env : String → Option (List ExRow)) :
    ∀ (mp : List (String × CategoryInfo)) (k : String) (info : CategoryInfo),
      (k, info) ∈ mp → ¬(env k = none) →
      ∀ (cats : List CategoryOut) (logs : List String),
        excelRunGo env mp = Except.ok (cats, logs) → ∃ c ∈ cats, c.id = info.id := by
  intro mp
  induction mp with
  | nil => intro k info hmem; simp at hmem
  | cons e rest ih =>
    intro k info hmem henv cats logs h
    obtain ⟨k', info'⟩ := e
    rcases List.mem_cons.1 hmem with heq | hmem'
    · injection heq with hk hinfo
      subst hk
      subst hinfo
      obtain ⟨rows, henv'⟩ := Option.ne_none_iff_exists'.1 henv
      cases hext : excelExtract rows with
      | error e' => simp [excelRunGo, henv', hext] at h
      | ok ms =>
        cases hrec : excelRunGo env rest with
        | error e' => simp [excelRunGo, henv', hext, hrec] at h
        | ok p =>
          obtain ⟨cats', logs'⟩ := p
          simp only [excelRunGo, henv', hext, hrec, Except.ok.injEq, Prod.mk.injEq] at h
          rw [← h.1]
          exact ⟨catOf info ms, by simp, rfl⟩
    · cases henv' : env k' with
      | none =>
        cases hrec : excelRunGo env rest with
        | error e' => simp [excelRunGo, henv', hrec] at h
        | ok p =>
          obtain ⟨cats', logs'⟩ := p
          simp only [excelRunGo, henv', hrec, Except.ok.injEq, Prod.mk.injEq] at h
          rw [← h.1]
          exact ih k info hmem' henv cats' logs' hrec
      | some rows =>
        cases hext : excelExtract rows with
        | error e' => simp [excelRunGo, henv', hext] at h
        | ok ms =>
          cases hrec : excelRunGo env rest with
          | error e' => simp [excelRunGo, henv', hext, hrec] at h
          | ok p =>
            obtain ⟨cats', logs'⟩ := p
            simp only [excelRunGo, henv', hext, hrec, Except.ok.injEq, Prod.mk.injEq] at h
            rw [← h.1]
            obtain ⟨c, hc, hc'⟩ := ih k info hmem' henv cats' logs' hrec
            exact ⟨c, by simp [hc], hc'⟩

/-- Distinct catalog entries have distinct ids. -/
theorem catMapping_id_inj :
    ∀ e ∈ CATEGORY_MAPPING, ∀ e' ∈ CATEGORY_MAPPING,
      e.2.id = e'.2.id → e = e' := by decide

/-- C8: when a category's CSV file (CSV path) or sheet (workbook path) is
absent, a completed run contains no output category with that category's id,
logs the corresponding warning, and still assembles a category for every
other present source. -/
theorem c8_missing_source_omitted :
    (∀ (env : String → Option (List CsvRow)) (k : String) (info : CategoryInfo),
      (k, info) ∈ CATEGORY_MAPPING → env info.csv_name = none →
      ∀ (cats : List CategoryOut) (logs : List String),
        csvRun env = Except.ok (cats, logs) →
        (∀ c ∈ cats, ¬(c.id = info.id)) ∧ warnCsv info.csv_name ∈ logs ∧
        (∀ (k' : String) (info' : CategoryInfo), (k', info') ∈ CATEGORY_MAPPING →
          ¬(env info'.csv_name = none) → ∃ c ∈ cats, c.id = info'.id)) ∧
    (∀ (env : String → Option (List ExRow)) (k : String) (info : CategoryInfo),
      (k, info) ∈ CATEGORY_MAPPING → env k = none →
      ∀ (cats : List CategoryOut) (logs : List String),
        excelRun env = Except.ok (cats, logs) →
        (∀ c ∈ cats, ¬(c.id = info.id)) ∧ warnSheet k ∈ logs ∧
        (∀ (k' : String) (info' : CategoryInfo), (k', info') ∈ CATEGORY_MAPPING →
          ¬(env k' = none) → ∃ c ∈ cats, c.id = info'.id)) := by
  constructor
  · intro env k info hmem henv cats logs h
    refine ⟨?_, csvRunGo_warn env CATEGORY_MAPPING k info hmem henv cats logs h, ?_⟩
    · intro c hc hid
      obtain ⟨e, he, hne, hid'⟩ := csvRunGo_mem env CATEGORY_MAPPING cats logs h c hc
      have : e = (k, info) := catMapping_id_inj e he (k, info) hmem (by rw [← hid', hid])
      rw [this] at hne
      exact hne henv
    · intro k' info' hmem' henv'
      exact csvRunGo_present env CATEGORY_MAPPING k' info' hmem' henv' cats logs h
  · intro env k info hmem henv cats logs h
    refine ⟨?_, excelRunGo_warn env CATEGORY_MAPPING k info hmem henv cats logs h, ?_⟩
    · intro c hc hid
      obtain ⟨e, he, hne, hid'⟩ := excelRunGo_mem env CATEGORY_MAPPING cats logs h c hc
      have : e = (k, info) := catMapping_id_inj e he (k, info) hmem (by rw [← hid', hid])
      rw [this] at hne
      exact hne henv
    · intro k' info' hmem' henv'
      exact excelRunGo_present env CATEGORY_MAPPING k' info' hmem' henv' cats logs h

/-- Concrete environment: every CSV file present (and empty) except the
passenger one. -/
def envCsvW : String → Option (List CsvRow) :=
  fun n => if n == "Passenger Vehicles.csv" then none else some []

/-- Concrete environment: every sheet present (and empty) except
`"Heavy Duty GIGA"`. -/
def envExW : String → Option (List ExRow) :=
  fun n => if n == "Heavy Duty GIGA" then none else some []

theorem c8_missing_source_omitted_witness :
    ((∀ c ∈ ([catOf infoLightCommercial [], catOf infoMediumDuty [],
        catOf infoHeavyDuty []] : List CategoryOut), ¬(c.id = infoPassenger.id)) ∧
      warnCsv infoPassenger.csv_name ∈ [warnCsv "Passenger Vehicles.csv"] ∧
      (∀ (k' : String) (info' : CategoryInfo), (k', info') ∈ CATEGORY_MAPPING →
        ¬(envCsvW info'.csv_name = none) →
        ∃ c ∈ ([catOf infoLightCommercial [], catOf infoMediumDuty [],
          catOf infoHeavyDuty []] : List CategoryOut), c.id = info'.id)) ∧
    ((∀ c ∈ ([catOf infoPassenger [], catOf infoLightCommercial [],
        catOf infoMediumDuty []] : List CategoryOut), ¬(c.id = infoHeavyDuty.id)) ∧
      warnSheet "Heavy Duty GIGA" ∈ [warnSheet "Heavy Duty GIGA"] ∧
      (∀ (k' : String) (info' : CategoryInfo), (k', info') ∈ CATEGORY_MAPPING →
        ¬(envExW k' = none) →
        ∃ c ∈ ([catOf infoPassenger [], catOf infoLightCommercial [],
          catOf infoMediumDuty []] : List CategoryOut), c.id = info'.id)) :=
  ⟨c8_missing_source_omitted.1 envCsvW "Passenger Vehicles" infoPassenger
     (by decide) (by decide) _ _ (by decide),
   c8_missing_source_omitted.2 envExW "Heavy Duty GIGA" infoHeavyDuty
     (by decide) (by decide) _ _ (by decide)⟩

/-! ## Claim C6: dash-separated digit segments -/

/-- The characters of a segment: an optional `P` currency-letter prefix
followed by its digits. -/
def segChars (p : Bool × List Char) : List Char :=
  if p.1 then 'P' :: p.2 else p.2

/-- Join segments with a fixed separator (the shape of the claim's
dash-separated inputs). -/
def joinSegs (sep : List Char) : List (List Char) → List Char
  | [] => []
  | [x] => x
  | x :: y :: rest => x ++ sep ++ joinSegs sep (y :: rest)

/-- Arithmetic reading of `Char.isDigit`. -/
theorem isDigit_toNat (c : Char) (h : c.isDigit = true) :
    48 ≤ c.toNat ∧ c.toNat ≤ 57 := by
  simp [Char.isDigit] at h
  exact h

/-- The dash class, readably. -/
theorem isDash_iff (c : Char) : isDash c = true ↔ c = '-' ∨ c = '–' := by
  simp [isDash]

/-- Whitespace characters are not dashes. -/
theorem space_not_dash (c : Char) (h : pyIsSpace c = true) : isDash c = false := by
  rw [← Bool.not_eq_true, isDash_iff]
  rintro (rfl | rfl) <;> exact absurd h (by decide)

/-- Whitespace characters are not uppercase ASCII letters. -/
theorem space_not_upper (c : Char) (h : pyIsSpace c = true) :
    ¬(65 ≤ c.toNat ∧ c.toNat ≤ 90) := by
  rw [pyIsSpace_iff] at h
  omega

theorem dropWhile_append_all {p : Char → Bool} {a : List Char} (b : List Char)
    (h : ∀ c ∈ a, p c = true) : (a ++ b).dropWhile p = b.dropWhile p := by
  induction a with
  | nil => rfl
  | cons c t ih =>
    rw [List.cons_append, List.dropWhile_cons, if_pos (h c (by simp))]
    exact ih fun d hd => h d (by simp [hd])

/-- A dash-free list does not split. -/
theorem splitDashes_no_dash {l : List Char} (h : ∀ c ∈ l, isDash c = false) :
    splitDashes l = [l] := by
  induction l with
  | nil => rfl
  | cons c cs ih =>
    simp only [splitDashes]
    rw [ih fun d hd => h d (List.mem_cons_of_mem _ hd),
      if_neg (by simp [h c (List.mem_cons_self c cs)])]

/-- Splitting at the first dash. -/
theorem splitDashes_append {a b : List Char} {d : Char}
    (ha : ∀ c ∈ a, isDash c = false) (hd : isDash d = true) :
    splitDashes (a ++ d :: b) = a :: splitDashes b := by
  induction a with
  | nil => simp [splitDashes, hd]
  | cons c a' ih =>
    simp only [List.cons_append, splitDashes, List.append_eq]
    rw [ih fun x hx => ha x (List.mem_cons_of_mem _ hx),
      if_neg (by simp [ha c (List.mem_cons_self _ _)])]

/-- Stripping removes exactly the whitespace padding around a non-blank,
whitespace-free core. -/
theorem stripP_pad (pre seg suf : List Char)
    (hpre : ∀ c ∈ pre, pyIsSpace c = true) (hsuf : ∀ c ∈ suf, pyIsSpace c = true)
    (hseg : ∀ c ∈ seg, pyIsSpace c = false) (hne : seg ≠ []) :
    stripP (pre ++ seg ++ suf) = seg := by
  unfold stripP
  rw [List.append_assoc, dropWhile_append_all _ hpre]
  have h1 : List.dropWhile pyIsSpace (seg ++ suf) = seg ++ suf := by
    cases seg with
    | nil => exact absurd rfl hne
    | cons c t =>
      rw [List.cons_append, List.dropWhile_cons, if_neg (by simp [hseg c (by simp)])]
  rw [h1, List.reverse_append, dropWhile_append_all _ (by simpa using hsuf),
    dropWhile_eq_self_of_all (by simpa using hseg), List.reverse_reverse]

/-- A non-empty join starts with its first segment. -/
theorem joinSegs_cons_eq (sep x : List Char) (xs : List (List Char)) :
    ∃ z, joinSegs sep (x :: xs) = x ++ z := by
  cases xs with
  | nil => exact ⟨[], by simp [joinSegs]⟩
  | cons y rest => exact ⟨sep ++ joinSegs sep (y :: rest), by simp [joinSegs]⟩

/-- Characters of a join come from a segment or from the separator. -/
theorem mem_joinSegs {sep : List Char} :
    ∀ {segs : List (List Char)} {c : Char}, c ∈ joinSegs sep segs →
      (∃ g ∈ segs, c ∈ g) ∨ c ∈ sep := by
  intro segs
  induction segs with
  | nil =>
    intro c hc
    simp [joinSegs] at hc
  | cons x xs ih =>
    intro c hc
    cases xs with
    | nil =>
      simp only [joinSegs] at hc
      exact Or.inl ⟨x, by simp, hc⟩
    | cons y rest =>
      simp only [joinSegs] at hc
      rcases List.mem_append.1 hc with h1 | h2
      · rcases List.mem_append.1 h1 with hx | hs
        · exact Or.inl ⟨x, by simp, hx⟩
        · exact Or.inr hs
      · rcases ih h2 with ⟨g, hg, hcg⟩ | hs
        · exact Or.inl ⟨g, by simp [hg], hcg⟩
        · exact Or.inr hs

/-- The reversed join (with anything appended) starts with a non-whitespace
character, so leading `dropWhile` is the identity on it. -/
theorem dropWhile_rev_joinSegs (sep : List Char) :
    ∀ segs : List (List Char), segs ≠ [] →
      (∀ g ∈ segs, g ≠ [] ∧ ∀ c ∈ g, pyIsSpace c = false) →
      ∀ b : List Char,
        List.dropWhile pyIsSpace ((joinSegs sep segs).reverse ++ b) =
          (joinSegs sep segs).reverse ++ b := by
  intro segs
  induction segs with
  | nil => intro h; exact absurd rfl h
  | cons x xs ih =>
    intro _ hgood b
    cases xs with
    | nil =>
      simp only [joinSegs]
      cases hxr : x.reverse with
      | nil => exact absurd (List.reverse_eq_nil_iff.1 hxr) (hgood x (by simp)).1
      | cons c' t' =>
        have hc' : c' ∈ x := List.mem_reverse.1 (by rw [hxr]; simp)
        rw [List.cons_append, List.dropWhile_cons,
          if_neg (by simp [(hgood x (by simp)).2 c' hc'])]
    | cons y rest =>
      simp only [joinSegs]
      have heq : (x ++ sep ++ joinSegs sep (y :: rest)).reverse ++ b =
          (joinSegs sep (y :: rest)).reverse ++ (sep.reverse ++ x.reverse ++ b) := by
        simp [List.reverse_append, List.append_assoc]
      rw [heq, ih (by simp) (fun g hg => hgood g (by simp [hg])) _]

/-- The join of non-blank, whitespace-free segments is already stripped. -/
theorem stripP_joinSegs (sep : List Char) (segs : List (List Char)) (hne : segs ≠ [])
    (hgood : ∀ g ∈ segs, g ≠ [] ∧ ∀ c ∈ g, pyIsSpace c = false) :
    stripP (joinSegs sep segs) = joinSegs sep segs := by
  cases segs with
  | nil => exact absurd rfl hne
  | cons x xs =>
    obtain ⟨z, hz⟩ := joinSegs_cons_eq sep x xs
    obtain ⟨c, t, hct⟩ : ∃ c t, x = c :: t := by
      cases hx : x with
      | nil => exact absurd hx (hgood x (by simp)).1
      | cons c t => exact ⟨c, t, rfl⟩
    have hfront : List.dropWhile pyIsSpace (joinSegs sep (x :: xs)) =
        joinSegs sep (x :: xs) := by
      rw [hz, hct, List.cons_append, List.dropWhile_cons, if_neg]
      simp [(hgood x (by simp)).2 c (by rw [hct]; simp)]
    have hback := dropWhile_rev_joinSegs sep (x :: xs) (by simp) hgood []
    rw [List.append_nil] at hback
    unfold stripP
    rw [hfront, hback, List.reverse_reverse]

/-- The code's split of a padded join recovers exactly the segments. -/
theorem splitDashes_joinSegs (sepL sepR : List Char) (d : Char)
    (hsL : ∀ c ∈ sepL, pyIsSpace c = true) (hsR : ∀ c ∈ sepR, pyIsSpace c = true)
    (hd : isDash d = true) :
    ∀ segs : List (List Char), segs ≠ [] →
      (∀ g ∈ segs, g ≠ [] ∧ ∀ c ∈ g, pyIsSpace c = false ∧ isDash c = false) →
      ∀ pad : List Char, (∀ c ∈ pad, pyIsSpace c = true) →
      (splitDashes (pad ++ joinSegs (sepL ++ d :: sepR) segs)).map stripP = segs := by
  intro segs
  induction segs with
  | nil => intro h; exact absurd rfl h
  | cons x xs ih =>
    intro _ hgood pad hpad
    cases xs with
    | nil =>
      simp only [joinSegs]
      rw [splitDashes_no_dash (fun c hc => ?_)]
      · simp only [List.map]
        have hstr := stripP_pad pad x [] hpad (by simp)
          (fun c hc => ((hgood x (by simp)).2 c hc).1) (hgood x (by simp)).1
        rw [List.append_nil] at hstr
        rw [hstr]
      · rcases List.mem_append.1 hc with hp | hx
        · exact space_not_dash _ (hpad c hp)
        · exact ((hgood x (by simp)).2 c hx).2
    | cons y rest =>
      have hsplit : splitDashes (pad ++ joinSegs (sepL ++ d :: sepR) (x :: y :: rest)) =
          (pad ++ x ++ sepL) ::
            splitDashes (sepR ++ joinSegs (sepL ++ d :: sepR) (y :: rest)) := by
        have h1 : pad ++ joinSegs (sepL ++ d :: sepR) (x :: y :: rest) =
            (pad ++ x ++ sepL) ++
              d :: (sepR ++ joinSegs (sepL ++ d :: sepR) (y :: rest)) := by
          simp [joinSegs, List.append_assoc]
        rw [h1]
        refine splitDashes_append (fun c hc => ?_) hd
        rcases List.mem_append.1 hc with h2 | hsl
        · rcases List.mem_append.1 h2 with hp | hx
          · exact space_not_dash _ (hpad c hp)
          · exact ((hgood x (by simp)).2 c hx).2
        · exact space_not_dash _ (hsL c hsl)
      rw [hsplit]
      simp only [List.map]
      rw [stripP_pad pad x sepL hpad hsL
        (fun c hc => ((hgood x (by simp)).2 c hc).1) (hgood x (by simp)).1]
      rw [ih (by simp) (fun g hg => hgood g (by simp [hg])) sepR hsR]

/-- `re.sub(r"[^0-9.]", "", ·)` of a prefixed digit run is the digit run. -/
theorem filter_digitOrDot_pre (pre dig : List Char)
    (hpre : ∀ c ∈ pre, digitOrDot c = false)
    (hdig : ∀ c ∈ dig, Char.isDigit c = true) :
    (pre ++ dig).filter digitOrDot = dig := by
  rw [List.filter_append, List.filter_eq_nil_iff.2 (fun a ha => by simp [hpre a ha]),
    List.filter_eq_self.2 (fun a ha => by simp [digitOrDot, hdig a ha]), List.nil_append]

/-- The per-segment formatter on an optionally-prefixed digit run takes the
integer branch. -/
theorem formatSegment_seg (pre dig : List Char)
    (hpre : ∀ c ∈ pre, digitOrDot c = false)
    (hne : dig ≠ []) (hdig : ∀ c ∈ dig, Char.isDigit c = true) :
    formatSegment (pre ++ dig) =
      some ("₱" ++ String.mk (commaGroup (toDecimal (natOfDigits dig)))) := by
  have hdot : ¬('.' ∈ dig) := by
    intro hx
    have h1 := isDigit_toNat '.' (hdig '.' hx)
    revert h1
    decide
  have hemp : dig.isEmpty = false := by
    cases dig with
    | nil => exact absurd rfl hne
    | cons c t => rfl
  simp only [formatSegment]
  rw [filter_digitOrDot_pre pre dig hpre hdig]
  simp [hemp, hdot]

/-- The lowered join of prefixed digit segments cannot contain `"request"`. -/
theorem joinSegs_req_free (sepL sepR : List Char) (d : Char)
    (hsL : ∀ c ∈ sepL, pyIsSpace c = true) (hsR : ∀ c ∈ sepR, pyIsSpace c = true)
    (hd : isDash d = true) (segs : List (Bool × List Char))
    (hseg : ∀ p ∈ segs, ∀ c ∈ p.2, Char.isDigit c = true) :
    isSubstrB reqPat
      ((joinSegs (sepL ++ d :: sepR) (segs.map segChars)).map pyLower) = false := by
  rw [← Bool.not_eq_true]
  intro h
  have hr : 'r' ∈ (joinSegs (sepL ++ d :: sepR) (segs.map segChars)).map pyLower :=
    mem_of_isSubstrB h (by decide)
  obtain ⟨c, hc, hcl⟩ := List.mem_map.1 hr
  have hdigcase : ∀ hdigc : c.isDigit = true, False := by
    intro hdigc
    have hb := isDigit_toNat c hdigc
    rw [pyLower_eq_self c (by omega)] at hcl
    subst hcl
    revert hb
    decide
  rcases mem_joinSegs hc with ⟨g, hg, hcg⟩ | hs
  · obtain ⟨p, hp, rfl⟩ := List.mem_map.1 hg
    unfold segChars at hcg
    by_cases hb : p.1
    · rw [if_pos hb] at hcg
      rcases List.mem_cons.1 hcg with rfl | hdig
      · exact absurd hcl (by decide)
      · exact hdigcase (hseg p hp c hdig)
    · rw [if_neg hb] at hcg
      exact hdigcase (hseg p hp c hcg)
  · rcases List.mem_append.1 hs with hsl | hrest
    · rw [pyLower_eq_self c (space_not_upper c (hsL c hsl))] at hcl
      subst hcl
      exact absurd (hsL _ hsl) (by decide)
    · rcases List.mem_cons.1 hrest with rfl | hsr
      · rcases (isDash_iff c).1 hd with rfl | rfl
        · exact absurd hcl (by decide)
        · exact absurd hcl (by decide)
      · rw [pyLower_eq_self c (space_not_upper c (hsR c hsr))] at hcl
        subst hcl
        exact absurd (hsR _ hsr) (by decide)

/-- C6: a dash-separated list of digit segments, each with an optional `P`
currency-letter prefix and the dash surrounded by optional whitespace, is
formatted segment-wise as `₱` followed by the parsed integer with comma
thousands grouping, joined by `" – "` in original order; in particular the
two quoted examples hold. -/
theorem c6_numeric_range_format :
    (∀ (segs : List (Bool × List Char)) (sepL sepR : List Char) (d : Char),
      segs ≠ [] →
      (∀ p ∈ segs, p.2 ≠ [] ∧ ∀ c ∈ p.2, Char.isDigit c = true) →
      (∀ c ∈ sepL, pyIsSpace c = true) → (∀ c ∈ sepR, pyIsSpace c = true) →
      isDash d = true →
      formatPriceRangeStr
        (String.mk (joinSegs (sepL ++ d :: sepR) (segs.map segChars))) =
        String.intercalate " – " (segs.map fun p =>
          "₱" ++ String.mk (commaGroup (toDecimal (natOfDigits p.2))))) ∧
    formatPriceRangeStr "P1070000 - P1140000" = "₱1,070,000 – ₱1,140,000" ∧
    formatPriceRangeStr "1070000-1140000" = "₱1,070,000 – ₱1,140,000" := by
  refine ⟨?_, by decide, by decide⟩
  intro segs sepL sepR d hne hseg hsL hsR hd
  have hgood : ∀ g ∈ segs.map segChars,
      g ≠ [] ∧ ∀ c ∈ g, pyIsSpace c = false ∧ isDash c = false := by
    intro g hg
    obtain ⟨p, hp, rfl⟩ := List.mem_map.1 hg
    constructor
    · by_cases hb : p.1 <;> simp [segChars, hb, (hseg p hp).1]
    · intro c hc
      have hc' : c = 'P' ∨ c ∈ p.2 := by
        unfold segChars at hc
        by_cases hb : p.1
        · rw [if_pos hb] at hc
          rcases List.mem_cons.1 hc with rfl | h2
          · exact Or.inl rfl
          · exact Or.inr h2
        · rw [if_neg hb] at hc
          exact Or.inr hc
      rcases hc' with rfl | hdig
      · exact ⟨by decide, by decide⟩
      · have hb := isDigit_toNat c ((hseg p hp).2 c hdig)
        refine ⟨pyIsSpace_false_of_range c (by omega) (by omega), ?_⟩
        rw [← Bool.not_eq_true, isDash_iff]
        rintro (rfl | rfl) <;> revert hb <;> decide
  have hne' : segs.map segChars ≠ [] := fun h => hne (by simpa using h)
  have hstrip : stripP (joinSegs (sepL ++ d :: sepR) (segs.map segChars)) =
      joinSegs (sepL ++ d :: sepR) (segs.map segChars) :=
    stripP_joinSegs _ _ hne'
      (fun g hg => ⟨(hgood g hg).1, fun c hc => ((hgood g hg).2 c hc).1⟩)
  have hreq := joinSegs_req_free sepL sepR d hsL hsR hd segs (fun p hp => (hseg p hp).2)
  have hJne : joinSegs (sepL ++ d :: sepR) (segs.map segChars) ≠ [] := by
    cases hmap : segs.map segChars with
    | nil => exact absurd hmap hne'
    | cons x xs =>
      obtain ⟨z, hz⟩ := joinSegs_cons_eq (sepL ++ d :: sepR) x xs
      rw [hz]
      have hx : x ≠ [] := (hgood x (by rw [hmap]; simp)).1
      simp [hx]
  have hsplit := splitDashes_joinSegs sepL sepR d hsL hsR hd (segs.map segChars)
    hne' hgood [] (by simp)
  rw [List.nil_append] at hsplit
  have hfmt : mapOpt formatSegment
      ((splitDashes (joinSegs (sepL ++ d :: sepR) (segs.map segChars))).map stripP) =
      some ((segs.map segChars).map fun part =>
        "₱" ++ String.mk (commaGroup (toDecimal (natOfDigits
          (part.filter digitOrDot))))) := by
    rw [hsplit]
    apply mapOpt_eq_some
    intro part hpart
    obtain ⟨p, hp, rfl⟩ := List.mem_map.1 hpart
    have hpre : ∀ c ∈ (if p.1 then ['P'] else ([] : List Char)), digitOrDot c = false := by
      intro c hc
      by_cases hb : p.1
      · rw [if_pos hb] at hc
        simp only [List.mem_singleton] at hc
        subst hc
        decide
      · rw [if_neg hb] at hc
        simp at hc
    have hsegeq : segChars p = (if p.1 then ['P'] else []) ++ p.2 := by
      by_cases hb : p.1 <;> simp [segChars, hb]
    rw [hsegeq, formatSegment_seg _ _ hpre (hseg p hp).1 (hseg p hp).2,
      filter_digitOrDot_pre _ _ hpre (hseg p hp).2]
  have hE : (joinSegs (sepL ++ d :: sepR) (segs.map segChars)).isEmpty = false := by
    cases hJ : joinSegs (sepL ++ d :: sepR) (segs.map segChars) with
    | nil => exact absurd hJ hJne
    | cons c t => rfl
  have hmc : ((segs.map segChars).map fun part =>
      "₱" ++ String.mk (commaGroup (toDecimal (natOfDigits (part.filter digitOrDot))))) =
      segs.map fun p => "₱" ++ String.mk (commaGroup (toDecimal (natOfDigits p.2))) := by
    rw [List.map_map]
    apply List.map_congr_left
    intro p hp
    have hpre : ∀ c ∈ (if p.1 then ['P'] else ([] : List Char)), digitOrDot c = false := by
      intro c hc
      by_cases hb : p.1
      · rw [if_pos hb] at hc
        simp only [List.mem_singleton] at hc
        subst hc
        decide
      · rw [if_neg hb] at hc
        simp at hc
    have hsegeq : segChars p = (if p.1 then ['P'] else []) ++ p.2 := by
      by_cases hb : p.1 <;> simp [segChars, hb]
    simp only [Function.comp]
    rw [hsegeq, filter_digitOrDot_pre _ _ hpre (hseg p hp).2]
  simp only [formatPriceRangeStr]
  rw [show (String.mk (joinSegs (sepL ++ d :: sepR) (segs.map segChars))).toList =
    joinSegs (sepL ++ d :: sepR) (segs.map segChars) from rfl]
  rw [hstrip, hE, hreq, hfmt, hmc]
  simp only [Bool.false_eq_true, if_false]
  cases hm : segs.map fun p => "₱" ++ String.mk (commaGroup (toDecimal (natOfDigits p.2))) with
  | nil => exact absurd (by simpa using hm) hne
  | cons f0 frest =>
    cases frest with
    | nil => rfl
    | cons f1 frest' => rfl

theorem c6_numeric_range_format_witness :
    ([((true : Bool), ['1', '0', '7', '0', '0', '0', '0']),
      ((true : Bool), ['1', '1', '4', '0', '0', '0', '0'])] ≠
        ([] : List (Bool × List Char))) ∧
    formatPriceRangeStr (String.mk (joinSegs ([' '] ++ '-' :: [' '])
      ([((true : Bool), ['1', '0', '7', '0', '0', '0', '0']),
        ((true : Bool), ['1', '1', '4', '0', '0', '0', '0'])].map segChars))) =
      String.intercalate " – "
        (([((true : Bool), ['1', '0', '7', '0', '0', '0', '0']),
          ((true : Bool), ['1', '1', '4', '0', '0', '0', '0'])]).map fun p =>
          "₱" ++ String.mk (commaGroup (toDecimal (natOfDigits p.2)))) :=
  ⟨by decide,
   c6_numeric_range_format.1
     [((true : Bool), ['1', '0', '7', '0', '0', '0', '0']),
      ((true : Bool), ['1', '1', '4', '0', '0', '0', '0'])]
     [' '] [' '] '-' (by decide) (by decide) (by decide) (by decide) (by decide)⟩
